import Mathlib

/-!
Verification of the StormCloudIDE multi-agent generation workflow.

This file is a shallow embedding of the core of the repository:
the fallback chain runner and the stage functions of
`apps/api/app/swarm/nodes.py`, the workflow graph of
`apps/api/app/swarm/graph.py`, the in-memory rate limiter of
`apps/api/app/rate_limit.py`, and the concurrent "swarm" variant of
`app.py` (`HybridSwarm._swarm`).

Python strings are modelled as `List Char`; Python dicts whose keys are
strings are modelled as insertion-ordered association lists in which a
write to an existing key updates it in place (like a Python dict).
`json.loads` is modelled by an executable fuel-indexed JSON parser.
Fallible Python code is modelled with `Option` / `Except`.
-/

/-! ## String utilities -/

/-- JSON insignificant whitespace, also the common characters stripped by
Python `str.strip()` (which additionally strips rarer whitespace such as
`\x0b`/`\x0c`; no input considered here contains those). -/
def isJsonWs (c : Char) : Bool :=
  c = ' ' || c = '\t' || c = '\n' || c = '\r'

/-- Skip leading whitespace. -/
def skipWs (l : List Char) : List Char :=
  l.dropWhile isJsonWs

/-- Model of Python `str.strip()`. -/
def pystrip (l : List Char) : List Char :=
  ((l.dropWhile isJsonWs).reverse.dropWhile isJsonWs).reverse

/-- Model of Python `str.find(c)` for a single character: index of the first
occurrence, `none` when absent (Python returns `-1`). -/
def findChar (c : Char) : List Char → Option Nat
  | [] => none
  | a :: as => if a = c then some 0 else (findChar c as).map (· + 1)

/-- Model of Python `str.rfind(c)`: index of the last occurrence. -/
def rfindChar (c : Char) (l : List Char) : Option Nat :=
  (findChar c l.reverse).map (fun k => l.length - 1 - k)

/-- Model of Python `sep.join(parts)`. -/
def joinSep (sep : List Char) : List (List Char) → List Char
  | [] => []
  | [x] => x
  | x :: y :: rest => x ++ sep ++ joinSep sep (y :: rest)

/-- Model of the Python substring test `needle in hay`. -/
def isSubstring (needle : List Char) : List Char → Bool
  | [] => needle.isEmpty
  | c :: rest => needle.isPrefixOf (c :: rest) || isSubstring needle rest

/-- The opening brace character, `Char.ofNat 123`. -/
def braceL : Char := Char.ofNat 123

/-- The closing brace character, `Char.ofNat 125`. -/
def braceR : Char := Char.ofNat 125

/-! ## JSON values and the model of `json.loads` -/

/-- Parsed JSON values. Numbers are kept exactly as rationals. -/
inductive JVal where
  | null : JVal
  | bool (b : Bool) : JVal
  | num (q : ℚ) : JVal
  | str (s : List Char) : JVal
  | arr (xs : List JVal) : JVal
  | obj (kvs : List (List Char × JVal)) : JVal

/-- Insert-or-update on an object member list, matching the semantics of a
Python dict built by `json.loads` (a duplicate key keeps its original
position and takes the last value). -/
def objInsert (kvs : List (List Char × JVal)) (k : List Char) (v : JVal) :
    List (List Char × JVal) :=
  match kvs with
  | [] => [(k, v)]
  | (k0, v0) :: rest =>
    if k0 = k then (k0, v) :: rest else (k0, v0) :: objInsert rest k v

/-- Lookup of an object member. -/
def jlookup (kvs : List (List Char × JVal)) (k : List Char) : Option JVal :=
  match kvs with
  | [] => none
  | (k0, v0) :: rest => if k0 = k then some v0 else jlookup rest k

/-- Value of a hexadecimal digit. -/
def hexVal (c : Char) : Option Nat :=
  if '0' ≤ c ∧ c ≤ '9' then some (c.toNat - '0'.toNat)
  else if 'a' ≤ c ∧ c ≤ 'f' then some (c.toNat - 'a'.toNat + 10)
  else if 'A' ≤ c ∧ c ≤ 'F' then some (c.toNat - 'A'.toNat + 10)
  else none

/-- Decode one JSON string-literal escape character (the character after the
backslash, `u`-escapes handled by the caller). -/
def unescape (c : Char) : Option Char :=
  if c = '"' ∨ c = '\\' ∨ c = '/' then some c
  else if c = 'b' then some (Char.ofNat 8)
  else if c = 'f' then some (Char.ofNat 12)
  else if c = 'n' then some '\n'
  else if c = 'r' then some '\r'
  else if c = 't' then some '\t'
  else none

/-- Parse the body of a JSON string literal (the opening quote already
consumed); returns the decoded characters and the rest of the input.
Surrogate-pair recombination of `\uXXXX` escapes is not modelled; no input
considered here uses them. -/
def jstring : List Char → Option (List Char × List Char)
  | [] => none
  | c :: cs =>
    if c = '"' then some ([], cs)
    else if c = '\\' then
      match cs with
      | 'u' :: h1 :: h2 :: h3 :: h4 :: cs2 =>
        match hexVal h1, hexVal h2, hexVal h3, hexVal h4 with
        | some a, some b, some c3, some d =>
          (jstring cs2).map
            (fun p => (Char.ofNat (((a * 16 + b) * 16 + c3) * 16 + d) :: p.1, p.2))
        | _, _, _, _ => none
      | e :: cs2 =>
        match unescape e with
        | some ch => (jstring cs2).map (fun p => (ch :: p.1, p.2))
        | none => none
      | [] => none
    else (jstring cs).map (fun p => (c :: p.1, p.2))

/-- Digits of a decimal literal folded into a natural number. -/
def digitsToNat (ds : List Char) : Nat :=
  ds.foldl (fun n c => 10 * n + (c.toNat - '0'.toNat)) 0

/-- Parse a JSON number literal; the value is reconstructed exactly as a
rational. -/
def jnum (s : List Char) : Option (JVal × List Char) :=
  let negced := match s with
    | '-' :: t => (true, t)
    | _ => (false, s)
  let ip := negced.2.span Char.isDigit
  if ip.1 = [] then none
  else
    let fr : Option (List Char) × List Char := match ip.2 with
      | '.' :: t =>
        let fs := t.span Char.isDigit
        (some fs.1, fs.2)
      | _ => (none, ip.2)
    if fr.1 = some [] then none
    else
      let ex : Option (Bool × List Char) × List Char := match fr.2 with
        | 'e' :: '+' :: t => (some (false, (t.span Char.isDigit).1), (t.span Char.isDigit).2)
        | 'e' :: '-' :: t => (some (true, (t.span Char.isDigit).1), (t.span Char.isDigit).2)
        | 'e' :: t => (some (false, (t.span Char.isDigit).1), (t.span Char.isDigit).2)
        | 'E' :: '+' :: t => (some (false, (t.span Char.isDigit).1), (t.span Char.isDigit).2)
        | 'E' :: '-' :: t => (some (true, (t.span Char.isDigit).1), (t.span Char.isDigit).2)
        | 'E' :: t => (some (false, (t.span Char.isDigit).1), (t.span Char.isDigit).2)
        | _ => (none, fr.2)
      if ex.1.elim false (fun p => p.2 = []) then none
      else
        let fracDigits := (fr.1.getD []).length
        let mantissa : ℤ := (digitsToNat (ip.1 ++ fr.1.getD []) : ℤ)
        let signed : ℤ := if negced.1 then -mantissa else mantissa
        let expo : ℤ := ex.1.elim 0 (fun p =>
          if p.1 then -(digitsToNat p.2 : ℤ) else (digitsToNat p.2 : ℤ))
        some (JVal.num ((signed : ℚ) * (10 : ℚ) ^ (expo - (fracDigits : ℤ))), ex.2)

/-- Match a fixed literal tail such as `rue` of `true`. -/
def expectLit (lit : List Char) (s : List Char) (v : JVal) : Option (JVal × List Char) :=
  if lit.isPrefixOf s then some (v, s.drop lit.length) else none

mutual

/-- Fuel-indexed JSON value parser (model of the grammar accepted by
Python `json.loads`). -/
def jval : Nat → List Char → Option (JVal × List Char)
  | 0, _ => none
  | fuel + 1, s =>
    match skipWs s with
    | [] => none
    | c :: rest =>
      if c = braceL then jobj fuel rest []
      else if c = '[' then jarr fuel rest []
      else if c = '"' then (jstring rest).map (fun p => (JVal.str p.1, p.2))
      else if c = 't' then expectLit ['r', 'u', 'e'] rest (JVal.bool true)
      else if c = 'f' then expectLit ['a', 'l', 's', 'e'] rest (JVal.bool false)
      else if c = 'n' then expectLit ['u', 'l', 'l'] rest JVal.null
      else jnum (c :: rest)

/-- Object members, entered right after the opening brace or a comma. -/
def jobj : Nat → List Char → List (List Char × JVal) → Option (JVal × List Char)
  | 0, _, _ => none
  | fuel + 1, s, acc =>
    match skipWs s with
    | [] => none
    | c :: rest =>
      if c = braceR && acc.isEmpty then some (JVal.obj [], rest)
      else if c = '"' then
        match jstring rest with
        | none => none
        | some (key, rest2) =>
          match skipWs rest2 with
          | ':' :: rest3 =>
            match jval fuel rest3 with
            | none => none
            | some (v, rest4) =>
              let acc2 := objInsert acc key v
              match skipWs rest4 with
              | ',' :: rest5 => jobj fuel rest5 acc2
              | c2 :: rest5 => if c2 = braceR then some (JVal.obj acc2, rest5) else none
              | [] => none
          | _ => none
      else none

/-- Array items, entered right after the opening bracket or a comma. -/
def jarr : Nat → List Char → List JVal → Option (JVal × List Char)
  | 0, _, _ => none
  | fuel + 1, s, acc =>
    match skipWs s with
    | ']' :: rest =>
      if acc.isEmpty then some (JVal.arr [], rest) else none
    | s1 =>
      match jval fuel s1 with
      | none => none
      | some (v, rest) =>
        let acc2 := acc ++ [v]
        match skipWs rest with
        | ',' :: rest2 => jarr fuel rest2 acc2
        | ']' :: rest2 => some (JVal.arr acc2, rest2)
        | _ => none

end

/-- Model of Python `json.loads`: parse one JSON document, requiring the
whole input to be consumed up to trailing whitespace; `none` models a raised
`json.JSONDecodeError`. -/
def json_loads (s : List Char) : Option JVal :=
  match jval (s.length + 1) s with
  | some (v, rest) => if skipWs rest = [] then some v else none
  | none => none

/-! ## `_safe_json_loads` (nodes.py lines 19-27) -/

/-- Model of `_safe_json_loads`: strip the input; if it starts with a brace
and ends with a brace, parse it whole; otherwise parse the substring from
the first opening brace to the last closing brace when that span is
non-degenerate; otherwise parse the whole stripped text. `none` models a
raised `json.JSONDecodeError`. -/
def _safe_json_loads (s0 : List Char) : Option JVal :=
  let s := pystrip s0
  if s.head? = some braceL ∧ s.getLast? = some braceR then json_loads s
  else
    match findChar braceL s, rfindChar braceR s with
    | some start, some e =>
      if start < e then json_loads ((s.drop start).take (e + 1 - start))
      else json_loads s
    | some _, none => json_loads s
    | none, _ => json_loads s

/-! ## Provider credential lookup and the fallback chain runner
(nodes.py lines 61-96, main.py `_env_keys`) -/

/-- The credential environment assembled by `_env_keys` in `main.py`:
one optional API key per provider family. -/
structure ApiKeysEnv where
  groq_api_key : Option (List Char)
  openrouter_api_key : Option (List Char)
  google_api_key : Option (List Char)
deriving DecidableEq

/-- The key selection performed at the top of `_one_shot_completion`:
string-prefix dispatch on the model identifier. A model of an unknown
family (and the `ollama/` family) gets no key. -/
def model_api_key (model : List Char) (keys : ApiKeysEnv) : Option (List Char) :=
  if "groq/".toList.isPrefixOf model then keys.groq_api_key
  else if "openrouter/".toList.isPrefixOf model then keys.openrouter_api_key
  else if "gemini/".toList.isPrefixOf model then keys.google_api_key
  else none

/-- A failure of a single provider call (`acompletion` raising), carrying
its stringified detail. -/
inductive PErr where
  | providerFailure (detail : List Char) : PErr
deriving DecidableEq

/-- The error raised by `_try_models_one_shot` when the chain is exhausted:
`RuntimeError(f"All models failed. Last error: {last_err!r}")`. -/
inductive ChainErr where
  | allModelsFailed (last : Option PErr) : ChainErr
deriving DecidableEq

/-- The outcome of one `acompletion` call, as a function of the model id and
the API key passed: the completion text, or a raised error. The network is
abstracted as this oracle. -/
abbrev ProviderCall := List Char → Option (List Char) → Except PErr (List Char)

/-- Model of `_one_shot_completion`: look up the family key, issue the call.
Note there is no skipping: the call is issued even when the key is `none`. -/
def _one_shot_completion (call : ProviderCall) (keys : ApiKeysEnv)
    (model : List Char) : Except PErr (List Char) :=
  call model (model_api_key model keys)

/-- Model of `_try_models_one_shot`, instrumented with the sequence of
models actually attempted (first component), in call order. The second
component is the returned `(model, text)` pair, or the raised error. The
`last` argument is the running `last_err` local (initially `none`). -/
def _try_models_one_shot (call : ProviderCall) (keys : ApiKeysEnv) :
    List (List Char) → Option PErr →
    List (List Char) × Except ChainErr (List Char × List Char)
  | [], last => ([], Except.error (ChainErr.allModelsFailed last))
  | m :: ms, _last =>
    match _one_shot_completion call keys m with
    | Except.ok out => ([m], Except.ok (m, out))
    | Except.error e =>
      let r := _try_models_one_shot call keys ms (some e)
      (m :: r.1, r.2)

/-! ## Workflow state and stage functions (models.py, nodes.py lines 99-188) -/

/-- One record of the `timeline` log. The records written by the five stage
functions carry a `node` name, an `event`, and at most one extra field
(`files` for the Coder, `count` for the Designer, `pass` for the Reviewer);
absent fields are `none`. -/
structure TLEntry where
  node : List Char
  event : List Char
  files : Option Nat
  count : Option Nat
  pass : Option Bool
deriving DecidableEq

/-- The `SwarmState` dict threaded through the stages. Fields the Python
code reads with `state.get(key, default)` are modelled as total fields whose
initial value is that default (`main.py` initialises `iterations = 0`,
`max_iterations = 2`, `timeline = []` and leaves the rest unset). -/
structure SwarmState where
  kind : List Char
  prompt : List Char
  plan : List Char
  code_files : List (List Char × List Char)
  image_prompts : List (List Char)
  review_passed : Bool
  review_notes : List Char
  iterations : Nat
  max_iterations : Nat
  timeline : List TLEntry
deriving DecidableEq

/-- The initial state built by the `/generate` endpoint in `main.py`
(lines 275-284), with unset keys at their `get` defaults. -/
def initialState (kind prompt : List Char) : SwarmState :=
  { kind := kind, prompt := prompt, plan := [], code_files := [],
    image_prompts := [], review_passed := false, review_notes := [],
    iterations := 0, max_iterations := 2, timeline := [] }

/-- Errors a stage can raise. `chain` wraps the chain-exhaustion error of
`_try_models_one_shot`; `jsonDecode`, `attributeError` and `typeError` model
the exceptions Python raises on a malformed provider response
(`json.JSONDecodeError` from `json.loads`, `AttributeError` from `.get` on a
non-dict, `TypeError` from iterating a non-iterable); `emptyGeneration`
models `RuntimeError("Coder returned no files.")`. -/
inductive NodeErr where
  | chain (e : ChainErr) : NodeErr
  | jsonDecode : NodeErr
  | attributeError : NodeErr
  | typeError : NodeErr
  | emptyGeneration : NodeErr
deriving DecidableEq

/-- Each stage consumes the text produced by its `_try_models_one_shot`
call (or that call's raised error); the chain plumbing itself is modelled
separately by `_try_models_one_shot`. -/
abbrev LLMResult := Except ChainErr (List Char)

/-- Model of Python truthiness `bool(x)` on a parsed JSON value. -/
def pyTruthy : JVal → Bool
  | JVal.null => false
  | JVal.bool b => b
  | JVal.num q => q ≠ 0
  | JVal.str s => ¬ s.isEmpty
  | JVal.arr xs => ¬ xs.isEmpty
  | JVal.obj kvs => ¬ kvs.isEmpty

/-- Digits of a natural number. -/
def natDigits (n : Nat) : List Char :=
  (Nat.toDigits 10 n)

/-- Model of Python `str(x)` on a parsed JSON value. Strings are returned
as-is; numbers, booleans and `None` are rendered as Python renders them
(non-integer rationals and containers get an abbreviated rendering — no
claim below depends on the rendering of a non-string value, only on which
values are rendered). -/
def pyStr : JVal → List Char
  | JVal.str s => s
  | JVal.bool true => "True".toList
  | JVal.bool false => "False".toList
  | JVal.null => "None".toList
  | JVal.num q =>
    if q.den = 1 then
      (if q.num < 0 then ['-'] else []) ++ natDigits q.num.natAbs
    else
      (if q.num < 0 then ['-'] else []) ++ natDigits q.num.natAbs ++ ['/'] ++ natDigits q.den
  | JVal.arr _ => "[...]".toList
  | JVal.obj _ => "<dict>".toList

/-- Iteration over a parsed JSON value, as Python `for f in x` would see it:
lists yield their items, strings their characters, dicts their keys; other
values raise `TypeError` (`none`). -/
def pyIterElems : JVal → Option (List JVal)
  | JVal.arr xs => some xs
  | JVal.str cs => some (cs.map (fun c => JVal.str [c]))
  | JVal.obj kvs => some (kvs.map (fun kv => JVal.str kv.1))
  | _ => none

/-- Insert-or-update on the `code_files` dict. -/
def dictSet (d : List (List Char × List Char)) (k v : List Char) :
    List (List Char × List Char) :=
  match d with
  | [] => [(k, v)]
  | (k0, v0) :: rest =>
    if k0 = k then (k0, v) :: rest else (k0, v0) :: dictSet rest k v

/-- Lookup on the `code_files` dict. -/
def dictLookup (d : List (List Char × List Char)) (k : List Char) :
    Option (List Char) :=
  match d with
  | [] => none
  | (k0, v0) :: rest => if k0 = k then some v0 else dictLookup rest k

/-- `node_research` (nodes.py lines 99-107): one chain call, one timeline
record, and `plan` is set (not appended) to the research notes. -/
def node_research (llm : LLMResult) (st : SwarmState) : Except NodeErr SwarmState :=
  match llm with
  | Except.error e => Except.error (NodeErr.chain e)
  | Except.ok text =>
    Except.ok { st with
      timeline := st.timeline ++
        [TLEntry.mk "Researcher".toList "done".toList none none none],
      plan := "[Research Notes]\n".toList ++ text ++ "\n\n".toList }

/-- `node_plan` (nodes.py lines 110-118): one chain call, one timeline
record, and a `[Plan]` section appended to the existing `plan`. -/
def node_plan (llm : LLMResult) (st : SwarmState) : Except NodeErr SwarmState :=
  match llm with
  | Except.error e => Except.error (NodeErr.chain e)
  | Except.ok text =>
    Except.ok { st with
      timeline := st.timeline ++
        [TLEntry.mk "Planner".toList "done".toList none none none],
      plan := st.plan ++ "[Plan]\n".toList ++ text ++ "\n".toList }

/-- The `{path, content}` extraction applied to one element of the `files`
list in `node_code`: only a dict containing both keys yields an entry. -/
def fileEntry (f : JVal) : Option (List Char × List Char) :=
  match f with
  | JVal.obj kvs =>
    match jlookup kvs "path".toList, jlookup kvs "content".toList with
    | some p, some c => some (pyStr p, pyStr c)
    | _, _ => none
  | _ => none

/-- `node_code` (nodes.py lines 121-136): parse the raw response with
`_safe_json_loads`, collect the valid `{path, content}` records of its
`files` list into `code_files`, and fail with `emptyGeneration` when none
are valid. -/
def node_code (llm : LLMResult) (st : SwarmState) : Except NodeErr SwarmState :=
  match llm with
  | Except.error e => Except.error (NodeErr.chain e)
  | Except.ok raw =>
    match _safe_json_loads raw with
    | none => Except.error NodeErr.jsonDecode
    | some data =>
      match data with
      | JVal.obj kvs =>
        let fl := (jlookup kvs "files".toList).getD (JVal.arr [])
        match pyIterElems fl with
        | none => Except.error NodeErr.typeError
        | some elems =>
          let files := elems.foldl (fun acc f =>
            match fileEntry f with
            | some pc => dictSet acc pc.1 pc.2
            | none => acc) []
          if files.isEmpty then Except.error NodeErr.emptyGeneration
          else Except.ok { st with
            code_files := files,
            timeline := st.timeline ++
              [TLEntry.mk "Coder".toList "done".toList (some files.length) none none] }
      | _ => Except.error NodeErr.attributeError

/-- `node_design` (nodes.py lines 139-150): parse the raw response, read
`image_prompts` (with Python's `x or []` coercion of a falsy value),
stringify each prompt and keep at most 3. -/
def node_design (llm : LLMResult) (st : SwarmState) : Except NodeErr SwarmState :=
  match llm with
  | Except.error e => Except.error (NodeErr.chain e)
  | Except.ok raw =>
    match _safe_json_loads raw with
    | none => Except.error NodeErr.jsonDecode
    | some data =>
      match data with
      | JVal.obj kvs =>
        let ip := (jlookup kvs "image_prompts".toList).getD JVal.null
        let ipl := if pyTruthy ip then ip else JVal.arr []
        match pyIterElems ipl with
        | none => Except.error NodeErr.typeError
        | some elems =>
          let prompts := (elems.map pyStr).take 3
          Except.ok { st with
            image_prompts := prompts,
            timeline := st.timeline ++
              [TLEntry.mk "Designer".toList "done".toList none (some prompts.length) none] }
      | _ => Except.error NodeErr.attributeError

/-- The note recorded when `README.md` is missing. -/
def missingReadmeMsg : List Char := "Missing README.md".toList

/-- The note recorded when a secret-looking name is found in a file body. -/
def secretMsg : List Char :=
  "Hardcoded secret-looking env var name found. Use .env, never inline secrets.".toList

/-- The deny-list scan of `node_review` (nodes.py lines 164-165): either
secret-looking name occurring in the newline-joined file bodies. -/
def secretFound (files : List (List Char × List Char)) : Bool :=
  let joined := joinSep "\n".toList (files.map Prod.snd)
  isSubstring "SUPABASE_SERVICE_ROLE_KEY".toList joined ||
    isSubstring "STRIPE_SECRET_KEY".toList joined

/-- The deterministic part of `node_review` (nodes.py lines 154-167):
the README presence check and the secret-substring deny-list, yielding the
verdict and notes before the LLM judgment is consulted. -/
def deterministicReview (files : List (List Char × List Char)) :
    Bool × List (List Char) :=
  let missing_readme := (dictLookup files "README.md".toList).isNone
  ((!missing_readme) && !secretFound files,
   (if missing_readme then [missingReadmeMsg] else []) ++
     (if secretFound files then [secretMsg] else []))

/-- The verdict and notes after the `try` block of `node_review`
(lines 169-183): any failure inside the block — the chain call raising,
the JSON parse failing, or `.get` on a non-dict — is swallowed and the
deterministic verdict stands; otherwise the LLM verdict is merged in. -/
def reviewVerdict (files : List (List Char × List Char)) (llm : LLMResult) :
    Bool × List (List Char) :=
  let det := deterministicReview files
  match llm with
  | Except.error _ => det
  | Except.ok raw =>
    match _safe_json_loads raw with
    | none => det
    | some data =>
      match data with
      | JVal.obj kvs =>
        let llm_pass := pyTruthy ((jlookup kvs "pass".toList).getD (JVal.bool true))
        let llm_notes := pystrip (pyStr ((jlookup kvs "notes".toList).getD (JVal.str [])))
        (det.1 && llm_pass, det.2 ++ if llm_notes.isEmpty then [] else [llm_notes])
      | _ => det

/-- The final `review_notes` text (nodes.py line 186): the non-empty notes
joined by `"; "`, or the fallback verdict word when there are none
(`"; ".join([n for n in notes if n]) or ("OK" if passed else "Needs fixes")`). -/
def renderReviewNotes (v : Bool × List (List Char)) : List Char :=
  let filtered := v.2.filter (fun n => !n.isEmpty)
  if filtered.isEmpty then
    (if v.1 then "OK".toList else "Needs fixes".toList)
  else joinSep "; ".toList filtered

/-- `node_review` (nodes.py lines 153-188). The stage never raises: every
failure of the judgment call is swallowed by its `try`/`except`. -/
def node_review (llm : LLMResult) (st : SwarmState) : SwarmState :=
  let v := reviewVerdict st.code_files llm
  { st with
    review_passed := v.1,
    review_notes := renderReviewNotes v,
    timeline := st.timeline ++
      [TLEntry.mk "Reviewer".toList "done".toList none none (some v.1)] }

/-! ## Workflow graph and orchestrator (graph.py) -/

/-- The five graph nodes. -/
inductive NodeName where
  | researcher : NodeName
  | planner : NodeName
  | coder : NodeName
  | designer : NodeName
  | reviewer : NodeName
deriving DecidableEq

/-- Run one stage. The Reviewer never raises (its judgment call is guarded
by `try`/`except`); the other stages propagate their errors, aborting the
run. -/
def runNode (n : NodeName) (llm : LLMResult) (st : SwarmState) :
    Except NodeErr SwarmState :=
  match n with
  | NodeName.researcher => node_research llm st
  | NodeName.planner => node_plan llm st
  | NodeName.coder => node_code llm st
  | NodeName.designer => node_design llm st
  | NodeName.reviewer => Except.ok (node_review llm st)

/-- Where `route_after_review` sends the run next. -/
inductive RouteTarget where
  | toPlanner : RouteTarget
  | toEnd : RouteTarget
deriving DecidableEq

/-- `route_after_review` (graph.py lines 26-32): when the review failed and
the iteration cap is not reached, increment `iterations` and loop back to
the Planner; otherwise terminate. The in-place `state["iterations"]`
mutation is modelled by returning the updated state alongside the target. -/
def route_after_review (st : SwarmState) : RouteTarget × SwarmState :=
  if st.review_passed = false ∧ st.iterations < st.max_iterations then
    (RouteTarget.toPlanner, { st with iterations := st.iterations + 1 })
  else (RouteTarget.toEnd, st)

/-- The per-invocation LLM outcome: invocation index and node name determine
the text the stage's `_try_models_one_shot` call produces (or the error it
raises). The network is abstracted as this oracle. -/
abbrev LLMOracle := Nat → NodeName → LLMResult

/-- Run a fixed list of nodes in sequence, threading the state and the
invocation counter and recording each node actually entered; stops at the
first raised error. -/
def runSeq (oracle : LLMOracle) (i : Nat) (ns : List NodeName) (st : SwarmState) :
    List NodeName × Nat × Except NodeErr SwarmState :=
  match ns with
  | [] => ([], i, Except.ok st)
  | n :: rest =>
    match runNode n (oracle i n) st with
    | Except.error e => ([n], i + 1, Except.error e)
    | Except.ok st' =>
      let r := runSeq oracle (i + 1) rest st'
      (n :: r.1, r.2.1, r.2.2)

/-- The body of the review loop: Planner → Coder → Designer → Reviewer. -/
def roundNodes : List NodeName :=
  [NodeName.planner, NodeName.coder, NodeName.designer, NodeName.reviewer]

/-- How a run ends. -/
inductive RunOutcome where
  | finished (st : SwarmState) : RunOutcome
  | failed (e : NodeErr) : RunOutcome
  | outOfFuel : RunOutcome
deriving DecidableEq

/-- The Planner→Reviewer loop with its conditional back-edge, indexed by
fuel (any fuel above the iteration cap is enough; `outOfFuel` is an
artifact of the embedding, not a behaviour of the code). -/
def runLoop (oracle : LLMOracle) : Nat → Nat → SwarmState → List NodeName × RunOutcome
  | 0, _, _ => ([], RunOutcome.outOfFuel)
  | fuel + 1, i, st =>
    match runSeq oracle i roundNodes st with
    | (tr, _, Except.error e) => (tr, RunOutcome.failed e)
    | (tr, i', Except.ok st') =>
      match route_after_review st' with
      | (RouteTarget.toPlanner, st2) =>
        let r := runLoop oracle fuel i' st2
        (tr ++ r.1, r.2)
      | (RouteTarget.toEnd, st2) => (tr, RunOutcome.finished st2)

/-- The whole compiled graph (graph.py `build_graph`): entry at the
Researcher, one edge into the loop, conditional edges after the Reviewer.
Returns the sequence of stage invocations actually executed and the
outcome. -/
def run_graph (oracle : LLMOracle) (fuel : Nat) (st : SwarmState) :
    List NodeName × RunOutcome :=
  match runNode NodeName.researcher (oracle 0 NodeName.researcher) st with
  | Except.error e => ([NodeName.researcher], RunOutcome.failed e)
  | Except.ok st1 =>
    let r := runLoop oracle fuel 1 st1
    (NodeName.researcher :: r.1, r.2)

/-- Projection of a successful outcome. -/
def outcomeFinished : RunOutcome → Option SwarmState
  | RunOutcome.finished st => some st
  | _ => none

/-! ## In-memory rate limiter (rate_limit.py lines 11-29) -/

/-- The limiter object: `self.rpm = max(1, rpm)`, `self.window_sec = 60`. -/
structure InMemoryRateLimiter where
  rpm : Nat
  window_sec : Nat
deriving DecidableEq

/-- The constructor `InMemoryRateLimiter.__init__`. -/
def mkRateLimiter (rpm : Nat) : InMemoryRateLimiter :=
  InMemoryRateLimiter.mk (max 1 rpm) 60

/-- The front eviction loop of `check`: `while q and (now - q[0]) > window:
q.popleft()`. Timestamps are rationals (Python floats from `time.time()`). -/
def evictOld (now window : ℚ) : List ℚ → List ℚ
  | [] => []
  | t :: ts => if now - t > window then evictOld now window ts else t :: ts

/-- What one `check` call does to one key's deque: whether HTTP 429 was
raised, and the deque contents after the call. -/
structure CheckResult where
  raised : Bool
  hits : List ℚ
deriving DecidableEq

/-- `InMemoryRateLimiter.check` (lines 16-29) on one key's deque: evict
expired timestamps from the front, raise when `rpm` or more remain,
otherwise append the current time. -/
def rl_check (rl : InMemoryRateLimiter) (now : ℚ) (q : List ℚ) : CheckResult :=
  let q' := evictOld now (rl.window_sec : ℚ) q
  if rl.rpm ≤ q'.length then CheckResult.mk true q'
  else CheckResult.mk false (q' ++ [now])

/-! ## The concurrent swarm variant (app.py `HybridSwarm._swarm`, lines 135-156) -/

/-- Values stored in a provider-response dict. -/
inductive PyV where
  | pbool (b : Bool) : PyV
  | pnat (n : Nat) : PyV
  | pstr (s : List Char) : PyV
deriving DecidableEq

/-- A provider-response dict. -/
abbrev ResDict := List (List Char × PyV)

/-- One element of the `asyncio.gather(..., return_exceptions=True)` result
list: a raised exception or a returned dict. -/
inductive GatherResult where
  | exn : GatherResult
  | res (d : ResDict) : GatherResult
deriving DecidableEq

/-- The key test `"error" in r`. -/
def rdictHasKey (d : ResDict) (k : List Char) : Bool :=
  d.any (fun kv => kv.1 = k)

/-- Insert-or-update on a provider-response dict. -/
def rdictSet (d : ResDict) (k : List Char) (v : PyV) : ResDict :=
  match d with
  | [] => [(k, v)]
  | (k0, v0) :: rest =>
    if k0 = k then (k0, v) :: rest else (k0, v0) :: rdictSet rest k v

/-- The API keys held by `HybridSwarm`. -/
structure SwarmKeys where
  groq_key : Option (List Char)
  openrouter_key : Option (List Char)
  google_key : Option (List Char)
deriving DecidableEq

/-- The task list built by `_swarm`: one task per provider with a configured
key, in the fixed order Groq, OpenRouter, Gemini. Each provider's eventual
gather result is supplied as an argument (the calls are concurrent but
joined before any result is inspected). -/
def swarmTasks (keys : SwarmKeys) (groqRes orRes gemRes : GatherResult) :
    List GatherResult :=
  (if keys.groq_key.isSome then [groqRes] else []) ++
  (if keys.openrouter_key.isSome then [orRes] else []) ++
  (if keys.google_key.isSome then [gemRes] else [])

/-- The validity test of `_swarm`: not an exception and no `"error"` key. -/
def validResult (r : GatherResult) : Option ResDict :=
  match r with
  | GatherResult.exn => none
  | GatherResult.res d => if rdictHasKey d "error".toList then none else some d

/-- `HybridSwarm._swarm`: fire one task per configured provider, join,
keep the structurally valid results, and return the first one tagged with
`swarm_mode` and the candidate count — or an error dict when no provider is
configured or none returned validly. -/
def hybrid_swarm (keys : SwarmKeys) (groqRes orRes gemRes : GatherResult) : ResDict :=
  let tasks := swarmTasks keys groqRes orRes gemRes
  if tasks.isEmpty then [("error".toList, PyV.pstr "No providers available".toList)]
  else
    let valid := tasks.filterMap validResult
    match valid with
    | [] => [("error".toList, PyV.pstr "All providers failed".toList)]
    | w :: _ =>
      rdictSet (rdictSet w "swarm_mode".toList (PyV.pbool true))
        "candidates".toList (PyV.pnat valid.length)

deriving instance DecidableEq for Except

/-! ## Helper lemmas -/

/-- A chain whose prefix of models all fail and whose next model succeeds
attempts exactly the prefix and the winner, in order, and returns the
winner's result. -/
theorem tryChain_skips_failures (call : ProviderCall) (keys : ApiKeysEnv)
    (mdl : List Char) (post : List (List Char)) (out : List Char) :
    ∀ (pre : List (List Char)) (last : Option PErr),
    (∀ m ∈ pre, ∃ e, _one_shot_completion call keys m = Except.error e) →
    _one_shot_completion call keys mdl = Except.ok out →
    _try_models_one_shot call keys (pre ++ mdl :: post) last =
      (pre ++ [mdl], Except.ok (mdl, out)) := by
  intro pre
  induction pre with
  | nil =>
    intro last _ hok
    simp only [List.nil_append, _try_models_one_shot, hok]
  | cons p pre' ih =>
    intro last hfail hok
    obtain ⟨e, he⟩ := hfail p (by simp)
    have hrest := ih (some e) (fun m hm => hfail m (by simp [hm])) hok
    simp only [List.cons_append, _try_models_one_shot, he, List.append_eq, hrest]

/-- One-step unfolding of `_try_models_one_shot` on a non-empty chain. -/
theorem tryModels_cons (call : ProviderCall) (keys : ApiKeysEnv)
    (m : List Char) (ms : List (List Char)) (last : Option PErr) :
    _try_models_one_shot call keys (m :: ms) last =
      match _one_shot_completion call keys m with
      | Except.ok out => ([m], Except.ok (m, out))
      | Except.error e =>
        (m :: (_try_models_one_shot call keys ms (some e)).1,
         (_try_models_one_shot call keys ms (some e)).2) := rfl

/-- A chain whose models all fail attempts every model once, in order, and
raises the chain error wrapping the last model's failure. -/
theorem tryChain_all_fail (call : ProviderCall) (keys : ApiKeysEnv) :
    ∀ (models : List (List Char)) (last : Option PErr) (mlast : List Char),
    (∀ m ∈ models, ∃ e, _one_shot_completion call keys m = Except.error e) →
    models.getLast? = some mlast →
    ∃ elast, _one_shot_completion call keys mlast = Except.error elast ∧
      _try_models_one_shot call keys models last =
        (models, Except.error (ChainErr.allModelsFailed (some elast))) := by
  intro models
  induction models with
  | nil => intro last mlast _ hl; simp at hl
  | cons m ms ih =>
    intro last mlast hfail hl
    obtain ⟨e, he⟩ := hfail m (by simp)
    cases ms with
    | nil =>
      simp only [List.getLast?_singleton, Option.some.injEq] at hl
      subst hl
      exact ⟨e, he, by simp only [_try_models_one_shot, he]⟩
    | cons m2 ms' =>
      have hl' : (m2 :: ms').getLast? = some mlast := by
        simpa [List.getLast?_cons_cons] using hl
      obtain ⟨elast, helast, heq⟩ :=
        ih (some e) mlast (fun x hx => hfail x (by simp [hx])) hl'
      refine ⟨elast, helast, ?_⟩
      rw [tryModels_cons, he]
      show (m :: (_try_models_one_shot call keys (m2 :: ms') (some e)).1,
          (_try_models_one_shot call keys (m2 :: ms') (some e)).2) =
        (m :: m2 :: ms', Except.error (ChainErr.allModelsFailed (some elast)))
      rw [heq]

/-! ## Claim theorems -/

/-- C2: Ordered fallback contract of the chain runner. For every model
chain, if the models of a prefix all fail and the next model succeeds,
`_try_models_one_shot` returns that model's result, having invoked exactly
the prefix models (once each, in order) and the winner, and no model after
it; and if all models fail, it raises the chain error wrapping the last
model's failure reason. -/
theorem C2_try_chain_ordered_fallback :
    (∀ (call : ProviderCall) (keys : ApiKeysEnv) (pre : List (List Char))
        (mdl : List Char) (post : List (List Char)) (out : List Char),
      (∀ m ∈ pre, ∃ e, _one_shot_completion call keys m = Except.error e) →
      _one_shot_completion call keys mdl = Except.ok out →
      _try_models_one_shot call keys (pre ++ mdl :: post) none =
        (pre ++ [mdl], Except.ok (mdl, out))) ∧
    (∀ (call : ProviderCall) (keys : ApiKeysEnv) (models : List (List Char))
        (mlast : List Char),
      (∀ m ∈ models, ∃ e, _one_shot_completion call keys m = Except.error e) →
      models.getLast? = some mlast →
      ∃ elast, _one_shot_completion call keys mlast = Except.error elast ∧
        _try_models_one_shot call keys models none =
          (models, Except.error (ChainErr.allModelsFailed (some elast)))) :=
  ⟨fun call keys pre mdl post out hfail hok =>
    tryChain_skips_failures call keys mdl post out pre none hfail hok,
   fun call keys models mlast hfail hl =>
    tryChain_all_fail call keys models none mlast hfail hl⟩

/-- A provider-call oracle for concrete chain examples: model `"b"`
succeeds, every other model raises. -/
def demoCall : ProviderCall := fun m _ =>
  if m = "b".toList then Except.ok "win".toList
  else Except.error (PErr.providerFailure "boom".toList)

/-- Concrete instance of C2: in the chain `["a", "b", "c"]` under
`demoCall`, model `"a"` fails, `"b"` wins, `"c"` is never attempted. -/
theorem C2_try_chain_ordered_fallback_witness :
    _try_models_one_shot demoCall (ApiKeysEnv.mk none none none)
        ["a".toList, "b".toList, "c".toList] none =
      (["a".toList, "b".toList], Except.ok ("b".toList, "win".toList)) :=
  C2_try_chain_ordered_fallback.1 demoCall (ApiKeysEnv.mk none none none)
    ["a".toList] "b".toList ["c".toList] "win".toList
    (by
      intro m hm
      simp only [List.mem_singleton] at hm
      subst hm
      exact ⟨PErr.providerFailure "boom".toList, rfl⟩)
    rfl

/-- C7 counterexample: the claim says a model whose provider family has no
configured API key is skipped and never attempted. In the code
(`_one_shot_completion` / `_try_models_one_shot`) there is no skip: with no
Groq key configured, a `groq/` model is still attempted — the sequence of
attempted models is `["groq/llama-3.1-70b"]`, not `[]`. -/
theorem C7_counterexample_keyless_model_attempted :
    model_api_key "groq/llama-3.1-70b".toList (ApiKeysEnv.mk none none none) = none ∧
    (_try_models_one_shot
        (fun _ _ => Except.error (PErr.providerFailure "auth".toList))
        (ApiKeysEnv.mk none none none)
        ["groq/llama-3.1-70b".toList] none).1 = ["groq/llama-3.1-70b".toList] ∧
    ["groq/llama-3.1-70b".toList] ≠ ([] : List (List Char)) :=
  ⟨rfl, rfl, by decide⟩

/-- C7 amended: a model whose provider family has no configured API key is
NOT skipped. The chain runner still attempts it — the call is issued with
`api_key = None` — and its failure is handled by the ordinary fallback,
exactly like any other model's failure. -/
theorem C7_amended_keyless_model_not_skipped :
    ∀ (call : ProviderCall) (keys : ApiKeysEnv) (m : List Char)
      (ms : List (List Char)) (last : Option PErr),
    model_api_key m keys = none →
    _one_shot_completion call keys m = call m none ∧
    ∃ tr, (_try_models_one_shot call keys (m :: ms) last).1 = m :: tr := by
  intro call keys m ms last hkey
  constructor
  · unfold _one_shot_completion
    rw [hkey]
  · rw [tryModels_cons]
    cases h : _one_shot_completion call keys m with
    | ok out => exact ⟨[], rfl⟩
    | error e => exact ⟨(_try_models_one_shot call keys ms (some e)).1, rfl⟩

/-- Concrete instance of the amended C7: with no keys configured at all, a
`groq/` model heads the attempted sequence and its call carries no API
key. -/
theorem C7_amended_keyless_model_not_skipped_witness :
    _one_shot_completion
        (fun _ _ => Except.error (PErr.providerFailure "auth".toList))
        (ApiKeysEnv.mk none none none) "groq/llama-3.1-70b".toList =
      (fun (_ : List Char) (_ : Option (List Char)) =>
        Except.error (PErr.providerFailure "auth".toList)) "groq/llama-3.1-70b".toList none ∧
    ∃ tr, (_try_models_one_shot
        (fun _ _ => Except.error (PErr.providerFailure "auth".toList))
        (ApiKeysEnv.mk none none none)
        ["groq/llama-3.1-70b".toList, "ollama/llama3".toList] none).1 =
      "groq/llama-3.1-70b".toList :: tr :=
  C7_amended_keyless_model_not_skipped
    (fun _ _ => Except.error (PErr.providerFailure "auth".toList))
    (ApiKeysEnv.mk none none none) "groq/llama-3.1-70b".toList
    ["ollama/llama3".toList] none rfl

/-- If the first character of a list is `c`, the first occurrence of `c` is
at index 0. -/
theorem findChar_of_head (c : Char) (l : List Char) (h : l.head? = some c) :
    findChar c l = some 0 := by
  cases l with
  | nil => simp at h
  | cons a as =>
    simp only [List.head?_cons, Option.some.injEq] at h
    simp [findChar, h]

/-- If the last character of a list is `c`, the last occurrence of `c` is at
index `length - 1`. -/
theorem rfindChar_of_getLast (c : Char) (l : List Char) (h : l.getLast? = some c) :
    rfindChar c l = some (l.length - 1) := by
  have hrev : l.reverse.head? = some c := by
    rw [List.head?_reverse]
    exact h
  unfold rfindChar
  rw [findChar_of_head c l.reverse hrev]
  simp

/-- The raw Coder response of the concrete C3 test case: JSON wrapped in
prose. -/
def c3raw : List Char :=
  "noise \x7b\"files\":[\x7b\"path\":\"a.txt\",\"content\":\"x\"\x7d]\x7d trailing".toList

/-- C3: the Coder parses the substring of the (stripped) raw response from
the first opening brace to the last closing brace as JSON, and on the
concrete prose-wrapped response the resulting `code_files` mapping is
exactly `a.txt ↦ x`. -/
theorem C3_coder_first_to_last_brace :
    (∀ (s : List Char) (i j : Nat),
      findChar braceL (pystrip s) = some i →
      rfindChar braceR (pystrip s) = some j →
      i < j →
      _safe_json_loads s = json_loads (((pystrip s).drop i).take (j + 1 - i))) ∧
    (node_code (Except.ok c3raw) (initialState [] [])).map SwarmState.code_files =
      Except.ok [("a.txt".toList, "x".toList)] := by
  constructor
  · intro s i j hi hj hij
    unfold _safe_json_loads
    by_cases hb : (pystrip s).head? = some braceL ∧ (pystrip s).getLast? = some braceR
    · rw [if_pos hb]
      have h0 : findChar braceL (pystrip s) = some 0 :=
        findChar_of_head braceL (pystrip s) hb.1
      have hlen : rfindChar braceR (pystrip s) = some ((pystrip s).length - 1) :=
        rfindChar_of_getLast braceR (pystrip s) hb.2
      rw [hi] at h0
      rw [hj] at hlen
      have hi0 : i = 0 := by
        injection h0
      have hlenpos : 0 < (pystrip s).length := by
        cases hp : pystrip s with
        | nil => rw [hp] at hb; simp at hb
        | cons a as => simp [hp]
      have hj' : j = (pystrip s).length - 1 := by
        injection hlen
      subst hi0
      rw [List.drop_zero]
      have : j + 1 - 0 = (pystrip s).length := by omega
      rw [this, List.take_length]
    · rw [if_neg hb, hi, hj]
      simp [hij]
  · decide

/-- Concrete instance of C3: on the prose-wrapped Coder response the parsed
document is the brace-delimited substring (indices 6 to 47 of the stripped
text). -/
theorem C3_coder_first_to_last_brace_witness :
    _safe_json_loads c3raw =
      json_loads (((pystrip c3raw).drop 6).take (47 + 1 - 6)) :=
  C3_coder_first_to_last_brace.1 c3raw 6 47 (by decide) (by decide) (by decide)

/-- Folding the file-collection step over elements none of which is a valid
`{path, content}` record leaves the accumulator unchanged. -/
theorem filesFold_of_no_valid (elems : List JVal)
    (h : ∀ f ∈ elems, fileEntry f = none) :
    ∀ acc, elems.foldl (fun acc f =>
      match fileEntry f with
      | some pc => dictSet acc pc.1 pc.2
      | none => acc) acc = acc := by
  induction elems with
  | nil => intro acc; rfl
  | cons f fs ih =>
    intro acc
    have hf : fileEntry f = none := h f (by simp)
    simp only [List.foldl_cons, hf]
    exact ih (fun g hg => h g (by simp [hg])) acc

/-- C4: when the parsed `files` list of the Coder response yields no valid
`{path, content}` entry, `node_code` fails with the empty-generation error
(`RuntimeError("Coder returned no files.")`): a raised error, so no state —
in particular no `code_files` — is produced by the stage. -/
theorem C4_empty_generation_hard_stop :
    ∀ (raw : List Char) (st : SwarmState) (kvs : List (List Char × JVal))
      (elems : List JVal),
    _safe_json_loads raw = some (JVal.obj kvs) →
    pyIterElems ((jlookup kvs "files".toList).getD (JVal.arr [])) = some elems →
    (∀ f ∈ elems, fileEntry f = none) →
    node_code (Except.ok raw) st = Except.error NodeErr.emptyGeneration := by
  intro raw st kvs elems hparse hiter hnone
  simp only [node_code, hparse, hiter, filesFold_of_no_valid elems hnone [],
    List.isEmpty_nil, if_true]

/-- Concrete instance of C4: a response whose `files` list is empty. -/
theorem C4_empty_generation_hard_stop_witness :
    node_code (Except.ok "\x7b\"files\":[]\x7d".toList) (initialState [] []) =
      Except.error NodeErr.emptyGeneration :=
  C4_empty_generation_hard_stop "\x7b\"files\":[]\x7d".toList (initialState [] [])
    [("files".toList, JVal.arr [])] []
    rfl rfl (fun f hf => absurd hf (List.not_mem_nil f))

/-- The verdict-and-notes pair after the `try` block always extends the
deterministic pair: the verdict is the deterministic verdict conjoined with
some LLM factor, and the notes extend the deterministic notes. -/
theorem reviewVerdict_extends_det (files : List (List Char × List Char))
    (llm : LLMResult) :
    ∃ b rest, reviewVerdict files llm =
      ((deterministicReview files).1 && b, (deterministicReview files).2 ++ rest) := by
  cases llm with
  | error e => exact ⟨true, [], by simp [reviewVerdict]⟩
  | ok raw =>
    cases h : _safe_json_loads raw with
    | none => exact ⟨true, [], by simp [reviewVerdict, h]⟩
    | some data =>
      cases data with
      | null => exact ⟨true, [], by simp [reviewVerdict, h]⟩
      | bool b => exact ⟨true, [], by simp [reviewVerdict, h]⟩
      | num q => exact ⟨true, [], by simp [reviewVerdict, h]⟩
      | str s => exact ⟨true, [], by simp [reviewVerdict, h]⟩
      | arr xs => exact ⟨true, [], by simp [reviewVerdict, h]⟩
      | obj kvs =>
        refine ⟨pyTruthy ((jlookup kvs "pass".toList).getD (JVal.bool true)),
          (if (pystrip (pyStr ((jlookup kvs "notes".toList).getD (JVal.str [])))).isEmpty
            then []
            else [pystrip (pyStr ((jlookup kvs "notes".toList).getD (JVal.str [])))]), ?_⟩
        simp [reviewVerdict, h]

/-- The head of a `joinSep` rendering leads it. -/
theorem joinSep_head_leads (sep x : List Char) (rest : List (List Char)) :
    x <+: joinSep sep (x :: rest) := by
  cases rest with
  | nil => exact List.prefix_refl x
  | cons y ys =>
    show x <+: x ++ sep ++ joinSep sep (y :: ys)
    simp [List.append_assoc]

/-- C5: whenever `code_files` lacks a `README.md` key, the Reviewer sets
`review_passed` to `false` no matter what the LLM answered (its verdict is
only ever conjoined), and `review_notes` contains the substring
`"Missing README.md"`. -/
theorem C5_missing_readme_forces_fail :
    ∀ (st : SwarmState) (llm : LLMResult),
    dictLookup st.code_files "README.md".toList = none →
    (node_review llm st).review_passed = false ∧
    missingReadmeMsg <:+: (node_review llm st).review_notes := by
  intro st llm h
  obtain ⟨b, rest, hv⟩ := reviewVerdict_extends_det st.code_files llm
  have hdet1 : (deterministicReview st.code_files).1 = false := by
    unfold deterministicReview
    rw [h]
    rfl
  have hdet2 : ∃ t, (deterministicReview st.code_files).2 = missingReadmeMsg :: t := by
    refine ⟨(if secretFound st.code_files then [secretMsg] else []), ?_⟩
    unfold deterministicReview
    rw [h]
    rfl
  obtain ⟨t, ht⟩ := hdet2
  constructor
  · show (reviewVerdict st.code_files llm).1 = false
    rw [hv, hdet1]
    rfl
  · show missingReadmeMsg <:+: renderReviewNotes (reviewVerdict st.code_files llm)
    rw [hv, ht]
    unfold renderReviewNotes
    have hne : (!missingReadmeMsg.isEmpty) = true := by decide
    simp only [List.cons_append, List.filter_cons, hne, if_true, List.isEmpty_cons,
      Bool.false_eq_true, if_false]
    obtain ⟨t2, ht2⟩ := joinSep_head_leads "; ".toList missingReadmeMsg
      ((t ++ rest).filter (fun n => !n.isEmpty))
    exact ⟨[], t2, by simpa using ht2⟩

/-- Concrete instance of C5: no files at all (so no `README.md`), LLM says
pass — review still fails and the notes name the missing README. -/
theorem C5_missing_readme_forces_fail_witness :
    (node_review (Except.ok "\x7b\"pass\": true\x7d".toList)
        (initialState [] [])).review_passed = false ∧
    missingReadmeMsg <:+:
      (node_review (Except.ok "\x7b\"pass\": true\x7d".toList)
        (initialState [] [])).review_notes :=
  C5_missing_readme_forces_fail (initialState [] [])
    (Except.ok "\x7b\"pass\": true\x7d".toList) rfl

/-- The LLM oracle of the concrete C6 run: the Coder produces a README, the
Reviewer's own judgment chain is exhausted and raises. -/
def c6oracle : LLMOracle := fun _ n =>
  match n with
  | NodeName.coder =>
    Except.ok "\x7b\"files\":[\x7b\"path\":\"README.md\",\"content\":\"hello\"\x7d]\x7d".toList
  | NodeName.designer => Except.ok "\x7b\"image_prompts\":[\"logo\"]\x7d".toList
  | NodeName.reviewer =>
    Except.error (ChainErr.allModelsFailed (some (PErr.providerFailure "down".toList)))
  | _ => Except.ok "notes".toList

/-- C6: when the Reviewer's judgment call raises, the stage does not raise
and the deterministic verdict alone stands: `review_passed` and
`review_notes` are exactly the deterministic-checks values; and a whole run
whose review chain is exhausted still completes (here passing the review on
the deterministic checks, with notes `"OK"`). -/
theorem C6_review_llm_failure_degrades :
    (∀ (st : SwarmState) (e : ChainErr),
      (node_review (Except.error e) st).review_passed =
        (deterministicReview st.code_files).1 ∧
      (node_review (Except.error e) st).review_notes =
        renderReviewNotes (deterministicReview st.code_files) ∧
      runNode NodeName.reviewer (Except.error e) st =
        Except.ok (node_review (Except.error e) st)) ∧
    (outcomeFinished (run_graph c6oracle 2 (initialState [] [])).2).map
        (fun s => (s.review_passed, s.review_notes)) =
      some (true, "OK".toList) := by
  constructor
  · intro st e
    exact ⟨rfl, rfl, rfl⟩
  · decide

/-- The initial state of the concrete C1 run (`main.py` lines 275-284:
`iterations = 0`, `max_iterations = 2`). -/
def c1init : SwarmState := initialState "web".toList "make an app".toList

/-- The LLM oracle of the concrete C1 run: every stage call succeeds, but
the Coder never produces a `README.md`, so every review fails
deterministically — even though the Reviewer's LLM answers `pass: true`. -/
def c1oracle : LLMOracle := fun _ n =>
  match n with
  | NodeName.coder =>
    Except.ok "\x7b\"files\":[\x7b\"path\":\"main.py\",\"content\":\"print(1)\"\x7d]\x7d".toList
  | NodeName.designer => Except.ok "\x7b\"image_prompts\":[]\x7d".toList
  | NodeName.reviewer => Except.ok "\x7b\"pass\": true, \"notes\": \"\"\x7d".toList
  | _ => Except.ok "some notes".toList

/-- The concrete C1 run: `max_iterations = 2`, every review failing. -/
def c1run : List NodeName × RunOutcome := run_graph c1oracle 4 c1init

/-- C1: `route_after_review` loops back to the Planner (incrementing
`iterations`) exactly when the review failed and `iterations` is below the
cap, and terminates otherwise; consequently a run started with
`iterations = 0`, `max_iterations = 2` in which every review fails executes
the Planner exactly 3 times and then terminates without success. -/
theorem C1_review_retry_loop_bound :
    (∀ st : SwarmState,
      (st.review_passed = false ∧ st.iterations < st.max_iterations →
        route_after_review st =
          (RouteTarget.toPlanner, { st with iterations := st.iterations + 1 })) ∧
      (¬ (st.review_passed = false ∧ st.iterations < st.max_iterations) →
        route_after_review st = (RouteTarget.toEnd, st))) ∧
    c1run.1.count NodeName.planner = 3 ∧
    (outcomeFinished c1run.2).map SwarmState.review_passed = some false := by
  refine ⟨fun st => ⟨fun h => ?_, fun h => ?_⟩, by decide, by decide⟩
  · unfold route_after_review
    rw [if_pos h]
  · unfold route_after_review
    rw [if_neg h]

/-- Concrete instance of the C1 routing rule: a failed review below the cap
routes back to the Planner with `iterations` bumped from 0 to 1. -/
theorem C1_review_retry_loop_bound_witness :
    route_after_review (initialState [] []) =
      (RouteTarget.toPlanner, { initialState [] [] with iterations := 1 }) :=
  (C1_review_retry_loop_bound.1 (initialState [] [])).1 ⟨rfl, by decide⟩

/-- Every stage that returns successfully appends exactly one record to the
timeline. -/
theorem runNode_appends_one (n : NodeName) (llm : LLMResult) (st st' : SwarmState)
    (h : runNode n llm st = Except.ok st') :
    ∃ e, st'.timeline = st.timeline ++ [e] := by
  cases n with
  | researcher =>
    cases llm with
    | error e => exact absurd h (by simp [runNode, node_research])
    | ok text =>
      simp only [runNode, node_research, Except.ok.injEq] at h
      exact ⟨TLEntry.mk "Researcher".toList "done".toList none none none, by rw [← h]⟩
  | planner =>
    cases llm with
    | error e => exact absurd h (by simp [runNode, node_plan])
    | ok text =>
      simp only [runNode, node_plan, Except.ok.injEq] at h
      exact ⟨TLEntry.mk "Planner".toList "done".toList none none none, by rw [← h]⟩
  | coder =>
    cases llm with
    | error e => exact absurd h (by simp [runNode, node_code])
    | ok raw =>
      simp only [runNode, node_code] at h
      repeat' split at h
      all_goals cases h
      all_goals exact ⟨_, rfl⟩
  | designer =>
    cases llm with
    | error e => exact absurd h (by simp [runNode, node_design])
    | ok raw =>
      simp only [runNode, node_design] at h
      repeat' split at h
      all_goals cases h
      all_goals exact ⟨_, rfl⟩
  | reviewer =>
    simp only [runNode, Except.ok.injEq] at h
    refine ⟨TLEntry.mk "Reviewer".toList "done".toList none none
      (some (reviewVerdict st.code_files llm).1), ?_⟩
    rw [← h]
    rfl

/-- A successful stage sequence grows the timeline by exactly one record per
executed stage, preserving the existing log as a prefix. -/
theorem runSeq_timeline (oracle : LLMOracle) :
    ∀ (ns : List NodeName) (i : Nat) (st : SwarmState) (tr : List NodeName)
      (i' : Nat) (st' : SwarmState),
    runSeq oracle i ns st = (tr, i', Except.ok st') →
    st'.timeline.length = st.timeline.length + tr.length ∧
      st.timeline <+: st'.timeline := by
  intro ns
  induction ns with
  | nil =>
    intro i st tr i' st' h
    simp only [runSeq, Prod.mk.injEq, Except.ok.injEq] at h
    obtain ⟨htr, _, hst⟩ := h
    rw [← htr, ← hst]
    simp
  | cons n rest ih =>
    intro i st tr i' st' h
    simp only [runSeq] at h
    cases hn : runNode n (oracle i n) st with
    | error e =>
      rw [hn] at h
      simp only [Prod.mk.injEq] at h
      exact absurd h.2.2 (by simp)
    | ok st1 =>
      rw [hn] at h
      simp only [Prod.mk.injEq] at h
      obtain ⟨htr, _, hrun⟩ := h
      obtain ⟨e0, he⟩ := runNode_appends_one n (oracle i n) st st1 hn
      obtain ⟨hlen, hpre⟩ := ih (i + 1) st1 _ _ st' (by rw [← hrun])
      constructor
      · rw [← htr]
        simp only [List.length_cons]
        rw [hlen, he]
        simp only [List.length_append, List.length_singleton]
        omega
      · refine List.IsPrefix.trans ?_ hpre
        rw [he]
        exact List.prefix_append st.timeline [e0]

/-- `route_after_review` never touches the timeline. -/
theorem route_preserves_timeline (st : SwarmState) :
    (route_after_review st).2.timeline = st.timeline := by
  unfold route_after_review
  split <;> rfl

/-- The review loop, when it finishes, grows the timeline by exactly one
record per executed stage, preserving the existing log as a prefix. -/
theorem runLoop_timeline (oracle : LLMOracle) :
    ∀ (fuel : Nat) (i : Nat) (st : SwarmState) (tr : List NodeName)
      (st' : SwarmState),
    runLoop oracle fuel i st = (tr, RunOutcome.finished st') →
    st'.timeline.length = st.timeline.length + tr.length ∧
      st.timeline <+: st'.timeline := by
  intro fuel
  induction fuel with
  | zero =>
    intro i st tr st' h
    simp only [runLoop, Prod.mk.injEq] at h
    exact absurd h.2 (by simp)
  | succ fuel ih =>
    intro i st tr st' h
    simp only [runLoop] at h
    rcases hseq : runSeq oracle i roundNodes st with ⟨tr1, i1, res⟩
    rw [hseq] at h
    cases res with
    | error e =>
      simp only [Prod.mk.injEq] at h
      exact absurd h.2 (by simp)
    | ok st1 =>
      have hstage := runSeq_timeline oracle roundNodes i st tr1 i1 st1 hseq
      have h1 : (match route_after_review st1 with
          | (RouteTarget.toPlanner, st2) =>
            (tr1 ++ (runLoop oracle fuel i1 st2).1, (runLoop oracle fuel i1 st2).2)
          | (RouteTarget.toEnd, st2) => (tr1, RunOutcome.finished st2)) =
          (tr, RunOutcome.finished st') := h
      rcases hroute : route_after_review st1 with ⟨target, st2⟩
      have ht2 : st2.timeline = st1.timeline := by
        have hh := route_preserves_timeline st1
        rw [hroute] at hh
        exact hh
      rw [hroute] at h1
      cases target with
      | toPlanner =>
        have h2 : (tr1 ++ (runLoop oracle fuel i1 st2).1,
            (runLoop oracle fuel i1 st2).2) = (tr, RunOutcome.finished st') := h1
        simp only [Prod.mk.injEq] at h2
        obtain ⟨htr, hr⟩ := h2
        obtain ⟨hlen, hpre⟩ := ih i1 st2 _ st' (by rw [← hr])
        constructor
        · rw [← htr]
          simp only [List.length_append]
          rw [hlen, ht2, hstage.1]
          omega
        · refine List.IsPrefix.trans hstage.2 ?_
          rw [← ht2]
          exact hpre
      | toEnd =>
        have h2 : (tr1, RunOutcome.finished st2) = (tr, RunOutcome.finished st') := h1
        simp only [Prod.mk.injEq, RunOutcome.finished.injEq] at h2
        obtain ⟨htr, hst⟩ := h2
        rw [← htr, ← hst]
        rw [ht2]
        exact hstage

/-- C8: every successful stage execution appends exactly one record to the
timeline, and a full (finished) run never removes or truncates records: the
initial log is a prefix of the final log, and the final length equals the
initial length plus the number of stage invocations actually executed
(repeated Planner/Reviewer passes included). -/
theorem C8_timeline_append_only :
    (∀ (n : NodeName) (llm : LLMResult) (st st' : SwarmState),
      runNode n llm st = Except.ok st' →
      ∃ e, st'.timeline = st.timeline ++ [e]) ∧
    (∀ (oracle : LLMOracle) (fuel : Nat) (st : SwarmState) (tr : List NodeName)
        (st' : SwarmState),
      run_graph oracle fuel st = (tr, RunOutcome.finished st') →
      st'.timeline.length = st.timeline.length + tr.length ∧
        st.timeline <+: st'.timeline) := by
  refine ⟨runNode_appends_one, ?_⟩
  intro oracle fuel st tr st' h
  simp only [run_graph] at h
  cases hres : runNode NodeName.researcher (oracle 0 NodeName.researcher) st with
  | error e =>
    rw [hres] at h
    simp only [Prod.mk.injEq] at h
    exact absurd h.2 (by simp)
  | ok st1 =>
    rw [hres] at h
    simp only [Prod.mk.injEq] at h
    obtain ⟨htr, hr⟩ := h
    obtain ⟨e0, he⟩ := runNode_appends_one NodeName.researcher
      (oracle 0 NodeName.researcher) st st1 hres
    obtain ⟨hlen, hpre⟩ := runLoop_timeline oracle fuel 1 st1 _ st' (by rw [← hr])
    constructor
    · rw [← htr]
      simp only [List.length_cons]
      rw [hlen, he]
      simp only [List.length_append, List.length_singleton]
      omega
    · refine List.IsPrefix.trans ?_ hpre
      rw [he]
      exact List.prefix_append st.timeline [e0]

/-- Concrete instance of C8: the three-round C1 run executes 13 stage
invocations and its final timeline has exactly 13 records, extending the
(empty) initial log. -/
theorem C8_timeline_append_only_witness :
    ((outcomeFinished c1run.2).getD c1init).timeline.length =
      c1init.timeline.length + c1run.1.length ∧
    c1init.timeline <+: ((outcomeFinished c1run.2).getD c1init).timeline :=
  C8_timeline_append_only.2 c1oracle 4 c1init c1run.1
    ((outcomeFinished c1run.2).getD c1init) (by decide)

/-- If the first element of a list satisfying "the extraction succeeds" is
`r`, with extraction `d`, then the extracted list starts with `d`. -/
theorem find?_cons_eq (p : GatherResult → Bool) (a : GatherResult)
    (l : List GatherResult) :
    (a :: l).find? p = if p a then some a else l.find? p := by
  cases hpa : p a <;> simp [List.find?, hpa]

/-- If the first element of a list satisfying "the extraction succeeds" is
`r`, with extraction `d`, then the extracted list starts with `d`. -/
theorem filterMap_head_of_find? (f : GatherResult → Option ResDict) :
    ∀ (l : List GatherResult) (r : GatherResult) (d : ResDict),
    l.find? (fun x => (f x).isSome) = some r → f r = some d →
    ∃ t, l.filterMap f = d :: t := by
  intro l
  induction l with
  | nil => intro r d hfind _; simp at hfind
  | cons a l' ih =>
    intro r d hfind hfr
    rw [find?_cons_eq] at hfind
    cases hfa : f a with
    | some d0 =>
      simp only [hfa, Option.isSome_some, if_true] at hfind
      injection hfind with hra
      rw [← hra, hfa] at hfr
      injection hfr with hd
      refine ⟨l'.filterMap f, ?_⟩
      rw [List.filterMap_cons, hfa, hd]
    | none =>
      simp only [hfa, Option.isSome_none, Bool.false_eq_true, if_false] at hfind
      obtain ⟨t, ht⟩ := ih r d hfind hfr
      exact ⟨t, by rw [List.filterMap_cons, hfa, ht]⟩

/-- Counting the elements whose extraction succeeds is the length of the
extracted list. -/
theorem countP_isSome_eq_length_filterMap (f : GatherResult → Option ResDict) :
    ∀ l : List GatherResult,
    l.countP (fun x => (f x).isSome) = (l.filterMap f).length := by
  intro l
  induction l with
  | nil => rfl
  | cons a l' ih =>
    rw [List.countP_cons, List.filterMap_cons]
    cases hfa : f a with
    | none =>
      have : ((f a).isSome : Bool) = false := by rw [hfa]; rfl
      simp [this, ih]
    | some d =>
      have : ((f a).isSome : Bool) = true := by rw [hfa]; rfl
      simp [this, ih]

/-- C9: swarm-mode result selection. With no provider key configured the
call returns the no-providers error dict; with providers configured but no
structurally valid result it returns the all-failed error dict; otherwise
the winner is the first valid result in provider list order, tagged with
`swarm_mode = true` and `candidates` = the number of valid results. -/
theorem C9_swarm_first_valid_wins :
    (∀ (keys : SwarmKeys) (g o m : GatherResult),
      keys.groq_key = none → keys.openrouter_key = none → keys.google_key = none →
      hybrid_swarm keys g o m =
        [("error".toList, PyV.pstr "No providers available".toList)]) ∧
    (∀ (keys : SwarmKeys) (g o m : GatherResult),
      (swarmTasks keys g o m).isEmpty = false →
      (∀ r ∈ swarmTasks keys g o m, validResult r = none) →
      hybrid_swarm keys g o m =
        [("error".toList, PyV.pstr "All providers failed".toList)]) ∧
    (∀ (keys : SwarmKeys) (g o m : GatherResult) (r : GatherResult) (d : ResDict),
      (swarmTasks keys g o m).find? (fun x => (validResult x).isSome) = some r →
      validResult r = some d →
      hybrid_swarm keys g o m =
        rdictSet (rdictSet d "swarm_mode".toList (PyV.pbool true)) "candidates".toList
          (PyV.pnat ((swarmTasks keys g o m).countP
            (fun x => (validResult x).isSome)))) := by
  refine ⟨?_, ?_, ?_⟩
  · intro keys g o m hg ho hm
    unfold hybrid_swarm swarmTasks
    rw [hg, ho, hm]
    rfl
  · intro keys g o m hne hall
    unfold hybrid_swarm
    rw [if_neg (by rw [hne]; exact Bool.false_ne_true)]
    rw [List.filterMap_eq_nil_iff.mpr hall]
  · intro keys g o m r d hfind hvr
    have hne : (swarmTasks keys g o m).isEmpty = false := by
      cases htasks : swarmTasks keys g o m with
      | nil => rw [htasks] at hfind; simp at hfind
      | cons a l => rfl
    obtain ⟨t, ht⟩ :=
      filterMap_head_of_find? validResult (swarmTasks keys g o m) r d hfind hvr
    unfold hybrid_swarm
    rw [if_neg (by rw [hne]; exact Bool.false_ne_true)]
    rw [countP_isSome_eq_length_filterMap validResult, ht]

/-- Concrete instance of C9: Groq key missing, OpenRouter errored, Gemini
valid — Gemini's dict wins with 1 candidate. -/
theorem C9_swarm_first_valid_wins_witness :
    hybrid_swarm (SwarmKeys.mk none (some "k1".toList) (some "k2".toList))
        (GatherResult.res [("new_code".toList, PyV.pstr "g".toList)])
        (GatherResult.res [("error".toList, PyV.pstr "HTTP 500".toList)])
        (GatherResult.res [("new_code".toList, PyV.pstr "x".toList)]) =
      rdictSet (rdictSet [("new_code".toList, PyV.pstr "x".toList)]
        "swarm_mode".toList (PyV.pbool true)) "candidates".toList (PyV.pnat 1) :=
  C9_swarm_first_valid_wins.2.2
    (SwarmKeys.mk none (some "k1".toList) (some "k2".toList))
    (GatherResult.res [("new_code".toList, PyV.pstr "g".toList)])
    (GatherResult.res [("error".toList, PyV.pstr "HTTP 500".toList)])
    (GatherResult.res [("new_code".toList, PyV.pstr "x".toList)])
    (GatherResult.res [("new_code".toList, PyV.pstr "x".toList)])
    [("new_code".toList, PyV.pstr "x".toList)]
    (by decide) (by decide)

/-- On a chronologically ordered deque, the front-eviction loop removes
exactly the expired timestamps: what remains is the trailing-window hits. -/
theorem evictOld_sorted_filter (now : ℚ) :
    ∀ q : List ℚ, List.Sorted (· ≤ ·) q →
    evictOld now 60 q = q.filter (fun t => decide (now - t ≤ 60)) := by
  intro q
  induction q with
  | nil => intro _; rfl
  | cons t ts ih =>
    intro hs
    obtain ⟨hts, hsorted⟩ := List.sorted_cons.mp hs
    by_cases hc : now - t > 60
    · have hfc : (decide (now - t ≤ 60)) = false := by
        simp only [decide_eq_false_iff_not, not_le]
        exact hc
      rw [evictOld, if_pos hc, List.filter_cons, hfc]
      simp only [Bool.false_eq_true, if_false]
      exact ih hsorted
    · have htc : (decide (now - t ≤ 60)) = true := by
        simp only [decide_eq_true_eq]
        exact le_of_not_lt hc
      rw [evictOld, if_neg hc, List.filter_cons, htc]
      simp only [if_true]
      have hall : ∀ u ∈ ts, (decide (now - u ≤ 60)) = true := by
        intro u hu
        simp only [decide_eq_true_eq]
        have h1 : t ≤ u := hts u hu
        have h2 : now - u ≤ now - t := by linarith
        have h3 : now - t ≤ 60 := le_of_not_lt hc
        linarith
      rw [List.filter_eq_self.mpr hall]

/-- C10: one `check` call on one key first evicts the timestamps older than
60 seconds, then raises HTTP 429 exactly when at least `rpm` hits remain;
an admitted call appends exactly one timestamp to the surviving hits, a
rejected call appends nothing (the in-window hits — which, on a
chronologically ordered deque, are exactly what eviction leaves — are
unchanged, so a rejected request consumes no slot). -/
theorem C10_rate_limiter_check :
    ∀ (rpm0 : Nat) (now : ℚ) (q : List ℚ),
    ((rl_check (mkRateLimiter rpm0) now q).raised = true ↔
      (mkRateLimiter rpm0).rpm ≤
        (evictOld now (((mkRateLimiter rpm0).window_sec : ℕ) : ℚ) q).length) ∧
    ((rl_check (mkRateLimiter rpm0) now q).raised = false →
      (rl_check (mkRateLimiter rpm0) now q).hits =
        evictOld now (((mkRateLimiter rpm0).window_sec : ℕ) : ℚ) q ++ [now]) ∧
    ((rl_check (mkRateLimiter rpm0) now q).raised = true →
      (rl_check (mkRateLimiter rpm0) now q).hits =
        evictOld now (((mkRateLimiter rpm0).window_sec : ℕ) : ℚ) q) ∧
    (List.Sorted (· ≤ ·) q →
      evictOld now (((mkRateLimiter rpm0).window_sec : ℕ) : ℚ) q =
        q.filter (fun t => decide (now - t ≤ 60))) := by
  intro rpm0 now q
  have hw : (((mkRateLimiter rpm0).window_sec : ℕ) : ℚ) = 60 := by
    norm_num [mkRateLimiter]
  by_cases hc : (mkRateLimiter rpm0).rpm ≤
      (evictOld now (((mkRateLimiter rpm0).window_sec : ℕ) : ℚ) q).length
  · refine ⟨⟨fun _ => hc, fun _ => ?_⟩, fun hf => ?_, fun _ => ?_, fun hs => ?_⟩
    · show (rl_check (mkRateLimiter rpm0) now q).raised = true
      simp [rl_check, hc]
    · exact absurd (by simp [rl_check, hc] :
        (rl_check (mkRateLimiter rpm0) now q).raised = true) (by rw [hf]; simp)
    · simp [rl_check, hc]
    · rw [hw]
      exact evictOld_sorted_filter now q hs
  · refine ⟨⟨fun ht => ?_, fun hle => absurd hle hc⟩, fun _ => ?_, fun ht => ?_, fun hs => ?_⟩
    · exact absurd (by simp [rl_check, hc] :
        (rl_check (mkRateLimiter rpm0) now q).raised = false) (by rw [ht]; simp)
    · simp [rl_check, hc]
    · exact absurd (by simp [rl_check, hc] :
        (rl_check (mkRateLimiter rpm0) now q).raised = false) (by rw [ht]; simp)
    · rw [hw]
      exact evictOld_sorted_filter now q hs

/-- Concrete instance of C10: `rpm = 1`, hits at times 0 and 50, checked at
time 100: the hit at 0 is expired and evicted, the hit at 50 is in-window,
so the call is rejected and the deque afterwards is exactly `[50]` — no
timestamp was appended. -/
theorem C10_rate_limiter_check_witness :
    (rl_check (mkRateLimiter 1) 100 [0, 50]).hits =
      evictOld 100 (((mkRateLimiter 1).window_sec : ℕ) : ℚ) [0, 50] ∧
    evictOld 100 (((mkRateLimiter 1).window_sec : ℕ) : ℚ) [0, 50] =
      List.filter (fun t => decide ((100 : ℚ) - t ≤ 60)) [0, 50] ∧
    (rl_check (mkRateLimiter 1) 100 [0, 50]).raised = true :=
  ⟨(C10_rate_limiter_check 1 100 [0, 50]).2.2.1
    (by norm_num [rl_check, mkRateLimiter, evictOld]),
   (C10_rate_limiter_check 1 100 [0, 50]).2.2.2 (by decide),
   (C10_rate_limiter_check 1 100 [0, 50]).1.mpr
    (by norm_num [mkRateLimiter, evictOld])⟩
